import Mathlib

/-!
Verification of the KML corridor generator
(`legacy/backend/kml-corridors/photo_corridor_generator.py`).

The Python code computes with IEEE doubles; we embed it over the exact
reals `ℝ`, so `math.sin` becomes `Real.sin`, `math.atan2 y x` becomes
`Complex.arg ⟨x, y⟩` (which agrees with the mathematical atan2 everywhere,
including `atan2 0 0 = 0`), and the claimed floating tolerances become
exact equalities.  A Python `(lon, lat, alt)` tuple is the structure
`Coordinate`.  Where the Python code would raise `IndexError` (indexing
`[-1]` or `[0]` on an empty list), the embedding uses `getLastD` / `headD`
with a junk default; every theorem below carries non-emptiness hypotheses
that keep it on the defined part, and the spot is marked by a comment.
-/

open Real

/-- A `(lon, lat, alt)` coordinate triple, degrees/degrees/meters. -/
structure Coordinate where
  lon : ℝ
  lat : ℝ
  alt : ℝ

/-- Junk value standing in where Python would raise `IndexError`. -/
def cdefault : Coordinate := ⟨0, 0, 0⟩

/-- Python `math.radians`. -/
noncomputable def radiansOf (x : ℝ) : ℝ := x * π / 180

/-- Python `math.degrees`. -/
noncomputable def degreesOf (x : ℝ) : ℝ := x * 180 / π

/-- Python `math.atan2 y x` over the reals: the argument of the complex
number `x + y·i`, valued in `(-π, π]`, with `arctan2 0 0 = 0` exactly as
`math.atan2 0.0 0.0 = 0.0`. -/
noncomputable def arctan2 (y x : ℝ) : ℝ := Complex.arg ⟨x, y⟩

/-- Python `x % m` for real `x` and positive real `m`
(`x - m * floor (x / m)`, the representative of `x` mod `m` in `[0, m)`). -/
noncomputable def pymod (x m : ℝ) : ℝ := x - m * ⌊x / m⌋

/-- Source `calculate_distance` (lines 24–38): Haversine great-circle
distance in meters on a sphere of radius 6 371 000 m. -/
noncomputable def calculate_distance (c1 c2 : Coordinate) : ℝ :=
  let lat1 := radiansOf c1.lat
  let lon1 := radiansOf c1.lon
  let lat2 := radiansOf c2.lat
  let lon2 := radiansOf c2.lon
  let dlat := lat2 - lat1
  let dlon := lon2 - lon1
  let a := Real.sin (dlat / 2) ^ 2 +
    Real.cos lat1 * Real.cos lat2 * Real.sin (dlon / 2) ^ 2
  let c := 2 * Real.arcsin (Real.sqrt a)
  c * 6371000

/-- Source `calculate_bearing` (lines 40–54): initial bearing from `c1` to
`c2` in degrees, normalized by `(bearing + 360) % 360`. -/
noncomputable def calculate_bearing (c1 c2 : Coordinate) : ℝ :=
  let lat1 := radiansOf c1.lat
  let lon1 := radiansOf c1.lon
  let lat2 := radiansOf c2.lat
  let lon2 := radiansOf c2.lon
  let dlon := lon2 - lon1
  let y := Real.sin dlon * Real.cos lat2
  let x := Real.cos lat1 * Real.sin lat2 -
    Real.sin lat1 * Real.cos lat2 * Real.cos dlon
  pymod (degreesOf (arctan2 y x) + 360) 360

/-- Source `project_coordinate` (lines 56–76): direct spherical geodesic,
the point reached from `coord` traveling `distance_m` along `bearing_deg`;
altitude carried through unchanged. -/
noncomputable def project_coordinate (coord : Coordinate) (bearing_deg distance_m : ℝ) :
    Coordinate :=
  let R : ℝ := 6371000
  let lat1 := radiansOf coord.lat
  let lon1 := radiansOf coord.lon
  let bearing := radiansOf bearing_deg
  let lat2 := Real.arcsin (Real.sin lat1 * Real.cos (distance_m / R) +
    Real.cos lat1 * Real.sin (distance_m / R) * Real.cos bearing)
  let lon2 := lon1 + arctan2
    (Real.sin bearing * Real.sin (distance_m / R) * Real.cos lat1)
    (Real.cos (distance_m / R) - Real.sin lat1 * Real.sin lat2)
  ⟨degreesOf lon2, degreesOf lat2, coord.alt⟩

/-- A line segment extracted from the KML: the dict
`{'index': i, 'name': name, 'coordinates': coords}` built at lines 368–373
(`coord_count` is redundant and omitted). -/
structure Segment where
  index : ℕ
  name : String
  coordinates : List Coordinate

/-- Source `is_dashed_connector_line` (lines 78–99): a segment is a dashed
connector iff it has exactly 2 coordinates and their Haversine distance is
strictly below 500 m. -/
noncomputable def is_dashed_connector_line (segment : Segment) : Prop :=
  if segment.coordinates.length ≠ 2 then False
  else calculate_distance (segment.coordinates.getD 0 cdefault)
        (segment.coordinates.getD 1 cdefault) < 500

/-- C3: a segment is classified a dashed connector iff it has exactly 2
coordinates and the distance between them is strictly less than 500 m; in
particular a 2-point segment at exactly 500 m is not a dashed connector
(strict `<`) and no segment with a coordinate count other than 2 ever is. -/
theorem c3_dashed_iff (segment : Segment) :
    is_dashed_connector_line segment ↔
      segment.coordinates.length = 2 ∧
        calculate_distance (segment.coordinates.getD 0 cdefault)
          (segment.coordinates.getD 1 cdefault) < 500 := by
  unfold is_dashed_connector_line
  by_cases h : segment.coordinates.length = 2 <;> simp [h]

/-- Line 110: `sorted(main_segments, key=lambda x: x['index'])`.  Python's
sort is stable; `List.insertionSort` is likewise stable, and the origin
indices produced by `enumerate` are pairwise distinct, so the two agree. -/
def sortSegments (main_segments : List Segment) : List Segment :=
  List.insertionSort (fun a b => a.index ≤ b.index) main_segments

/-- Loop body of `build_detailed_continuous_track` (lines 117–139) over the
already-sorted tail: for each subsequent segment, compare the track's last
point (`detailed_track[-1]`, an `IndexError` in Python when the track is
still empty, here `getLastD`) with the segment's first coordinate
(`coords[0]`, an `IndexError` in Python on an empty segment, here `headD`)
and drop that first coordinate iff they are closer than 50 m. -/
noncomputable def build_loop (detailed_track : List Coordinate) :
    List Segment → List Coordinate
  | [] => detailed_track
  | segment :: rest =>
      build_loop
        (if calculate_distance (detailed_track.getLastD cdefault)
              (segment.coordinates.headD cdefault) < 50 then
          detailed_track ++ segment.coordinates.tail
        else
          detailed_track ++ segment.coordinates) rest

/-- Source `build_detailed_continuous_track` (lines 101–149): sort the main
segments by origin index, seed the track with the first segment's
coordinates (`i == 0` branch), then run the junction loop over the rest.
The `if not main_segments: return []` guard is the `[]` case of the match
(sorting preserves emptiness). -/
noncomputable def build_detailed_continuous_track (main_segments : List Segment) :
    List Coordinate :=
  match sortSegments main_segments with
  | [] => []
  | s0 :: rest => build_loop s0.coordinates rest

/-- C4: for two main-track segments in origin order, the built Track drops
exactly the second segment's first point when the junction gap is below
50 m, and keeps every point otherwise. -/
theorem c4_stitch_length (s1 s2 : Segment)
    (h1 : s1.coordinates ≠ []) (h2 : s2.coordinates ≠ [])
    (hidx : s1.index < s2.index) :
    (build_detailed_continuous_track [s1, s2]).length =
      if calculate_distance (s1.coordinates.getLastD cdefault)
          (s2.coordinates.headD cdefault) < 50 then
        s1.coordinates.length + s2.coordinates.length - 1
      else
        s1.coordinates.length + s2.coordinates.length := by
  have hsort : sortSegments [s1, s2] = [s1, s2] := by
    simp [sortSegments, List.insertionSort, List.orderedInsert, Nat.le_of_lt hidx]
  have hlen2 : 1 ≤ s2.coordinates.length := List.length_pos.mpr h2
  rw [build_detailed_continuous_track, hsort]
  show (build_loop s1.coordinates [s2]).length = _
  rw [build_loop, build_loop]
  by_cases hd : calculate_distance (s1.coordinates.getLastD cdefault)
      (s2.coordinates.headD cdefault) < 50
  · rw [if_pos hd, if_pos hd]
    simp [List.length_tail]
    omega
  · rw [if_neg hd, if_neg hd]
    simp

/-- Haversine distance from a point to itself is 0. -/
lemma calculate_distance_self (c : Coordinate) : calculate_distance c c = 0 := by
  simp [calculate_distance]

/-- Haversine distance between the equatorial points at longitude 0 and
longitude 180 is half the circumference, `π * 6371000` m. -/
lemma calculate_distance_antipode :
    calculate_distance ⟨0, 0, 0⟩ ⟨180, 0, 0⟩ = π * 6371000 := by
  unfold calculate_distance radiansOf
  simp only
  rw [show ((180:ℝ) * π / 180 - 0 * π / 180) / 2 = π / 2 by ring,
    show ((0:ℝ) * π / 180 - 0 * π / 180) / 2 = 0 by ring]
  simp [Real.sin_pi_div_two]
  ring

/-- C4 witness: two 2-point segments sharing their junction point (gap 0 m,
below 50) stitch to a 3-point Track. -/
theorem c4_stitch_length_witness :
    (build_detailed_continuous_track
      [⟨0, "a", [⟨0, 0, 0⟩, ⟨180, 0, 0⟩]⟩,
       ⟨1, "b", [⟨180, 0, 0⟩, ⟨0, 0, 0⟩]⟩]).length = 3 := by
  have h := c4_stitch_length ⟨0, "a", [⟨0, 0, 0⟩, ⟨180, 0, 0⟩]⟩
    ⟨1, "b", [⟨180, 0, 0⟩, ⟨0, 0, 0⟩]⟩ (by simp) (by simp) (by norm_num)
  rw [if_pos] at h
  · simpa using h
  · have h0 : calculate_distance ⟨180, 0, 0⟩ ⟨180, 0, 0⟩ < 50 := by
      rw [calculate_distance_self]; norm_num
    simpa using h0

/-- C5 counterexample: a single 4-point main-track segment that repeats a
coordinate produces a Track whose first two consecutive points are 0 m
apart, violating the claimed 50 m minimum spacing inside segments.  (A
4-point segment is never a dashed connector, so it is a main-track
segment.) -/
theorem c5_counterexample :
    1 < (build_detailed_continuous_track
          [⟨0, "s", [⟨0, 0, 0⟩, ⟨0, 0, 0⟩, ⟨180, 0, 0⟩, ⟨180, 0, 0⟩]⟩]).length ∧
    calculate_distance
      ((build_detailed_continuous_track
          [⟨0, "s", [⟨0, 0, 0⟩, ⟨0, 0, 0⟩, ⟨180, 0, 0⟩, ⟨180, 0, 0⟩]⟩]).getD 0 cdefault)
      ((build_detailed_continuous_track
          [⟨0, "s", [⟨0, 0, 0⟩, ⟨0, 0, 0⟩, ⟨180, 0, 0⟩, ⟨180, 0, 0⟩]⟩]).getD 1 cdefault)
      < 50 := by
  have hb : build_detailed_continuous_track
      [⟨0, "s", [⟨0, 0, 0⟩, ⟨0, 0, 0⟩, ⟨180, 0, 0⟩, ⟨180, 0, 0⟩]⟩] =
      [⟨0, 0, 0⟩, ⟨0, 0, 0⟩, ⟨180, 0, 0⟩, ⟨180, 0, 0⟩] := by
    simp [build_detailed_continuous_track, sortSegments, List.insertionSort, build_loop]
  rw [hb]
  refine ⟨by simp, ?_⟩
  simpa [calculate_distance_self] using (by norm_num : (0:ℝ) < 50)

/-- C5 amended: what the builder does guarantee at a junction: when two
segments in origin order meet within 50 m, the second segment's first
coordinate is dropped (no junction-duplicated vertex); no other spacing
guarantee holds. -/
theorem c5_junction_drop (s1 s2 : Segment)
    (h1 : s1.coordinates ≠ []) (h2 : s2.coordinates ≠ [])
    (hidx : s1.index < s2.index)
    (hclose : calculate_distance (s1.coordinates.getLastD cdefault)
      (s2.coordinates.headD cdefault) < 50) :
    build_detailed_continuous_track [s1, s2] =
      s1.coordinates ++ s2.coordinates.tail := by
  have hsort : sortSegments [s1, s2] = [s1, s2] := by
    simp [sortSegments, List.insertionSort, List.orderedInsert, Nat.le_of_lt hidx]
  rw [build_detailed_continuous_track, hsort]
  show build_loop s1.coordinates [s2] = _
  rw [build_loop, build_loop, if_pos hclose]

/-- C5 amended witness: a concrete junction below 50 m where the duplicate
first coordinate is dropped. -/
theorem c5_junction_drop_witness :
    build_detailed_continuous_track
      [⟨0, "a", [⟨0, 0, 0⟩, ⟨180, 0, 0⟩]⟩,
       ⟨1, "b", [⟨180, 0, 0⟩, ⟨0, 0, 0⟩, ⟨180, 0, 0⟩]⟩] =
      [⟨0, 0, 0⟩, ⟨180, 0, 0⟩, ⟨0, 0, 0⟩, ⟨180, 0, 0⟩] := by
  have h := c5_junction_drop ⟨0, "a", [⟨0, 0, 0⟩, ⟨180, 0, 0⟩]⟩
    ⟨1, "b", [⟨180, 0, 0⟩, ⟨0, 0, 0⟩, ⟨180, 0, 0⟩]⟩ (by simp) (by simp) (by norm_num)
    (by
      have h0 : calculate_distance ⟨180, 0, 0⟩ ⟨180, 0, 0⟩ < 50 := by
        rw [calculate_distance_self]; norm_num
      simpa using h0)
  simpa using h

/-- C8: the Track Builder orders segments solely by origin index: on any
permutation of a segment list with pairwise-distinct origin indices it
produces the identical Track. -/
theorem c8_perm_invariant (l1 l2 : List Segment) (hperm : l1.Perm l2)
    (hnodup : (l1.map Segment.index).Nodup) :
    build_detailed_continuous_track l1 = build_detailed_continuous_track l2 := by
  suffices hs : sortSegments l1 = sortSegments l2 by
    unfold build_detailed_continuous_track
    rw [hs]
  haveI : IsTotal Segment (fun a b => a.index ≤ b.index) := ⟨fun a b => Nat.le_total _ _⟩
  haveI : IsTrans Segment (fun a b => a.index ≤ b.index) :=
    ⟨fun _ _ _ hab hbc => Nat.le_trans hab hbc⟩
  haveI : IsAntisymm Segment (fun a b => a.index < b.index) :=
    ⟨fun _ _ hab hba => absurd hba (Nat.lt_asymm hab)⟩
  have hp : (sortSegments l1).Perm (sortSegments l2) :=
    (List.perm_insertionSort _ l1).trans (hperm.trans (List.perm_insertionSort _ l2).symm)
  have hnd1 : ((sortSegments l1).map Segment.index).Nodup :=
    (((List.perm_insertionSort _ l1).map Segment.index).nodup_iff).mpr hnodup
  have hnd2 : ((sortSegments l2).map Segment.index).Nodup :=
    ((hp.map Segment.index).nodup_iff).mp hnd1
  have hstrict : ∀ l : List Segment, ((l.map Segment.index).Nodup) →
      List.Sorted (fun a b => a.index ≤ b.index) l →
      List.Sorted (fun a b : Segment => a.index < b.index) l := by
    intro l hnd hsorted
    have hne : List.Pairwise (fun a b : Segment => a.index ≠ b.index) l :=
      List.pairwise_map.mp hnd
    exact (hsorted.and hne).imp fun h => lt_of_le_of_ne h.1 h.2
  exact List.eq_of_perm_of_sorted hp
    (hstrict _ hnd1 (List.sorted_insertionSort _ l1))
    (hstrict _ hnd2 (List.sorted_insertionSort _ l2))

/-- C8 witness: swapping two concrete segments with distinct origin indices
does not change the built Track. -/
theorem c8_perm_invariant_witness :
    build_detailed_continuous_track
      [⟨0, "a", [⟨0, 0, 0⟩, ⟨180, 0, 0⟩]⟩, ⟨1, "b", [⟨0, 90, 0⟩]⟩] =
    build_detailed_continuous_track
      [⟨1, "b", [⟨0, 90, 0⟩]⟩, ⟨0, "a", [⟨0, 0, 0⟩, ⟨180, 0, 0⟩]⟩] := by
  exact c8_perm_invariant _ _ (List.Perm.swap _ _ _) (by simp)

/-- Source `find_point_on_track` (lines 208–223): linear scan for the track
index closest to `target_point`.  The Python loop starts with
`min_distance = inf, closest_index = 0`, so its first iteration always
updates; the embedding seeds the loop with the first element's distance,
which is the same computation. -/
noncomputable def fpot_loop (target_point : Coordinate) :
    List Coordinate → ℕ → ℝ → ℕ → ℕ
  | [], _, _, closest_index => closest_index
  | coord :: rest, i, min_distance, closest_index =>
      if calculate_distance coord target_point < min_distance then
        fpot_loop target_point rest (i + 1) (calculate_distance coord target_point) i
      else
        fpot_loop target_point rest (i + 1) min_distance closest_index

/-- Source `find_point_on_track` (lines 208–223). -/
noncomputable def find_point_on_track (track_coords : List Coordinate)
    (target_point : Coordinate) : Option ℕ :=
  match track_coords with
  | [] => none
  | c :: rest =>
      some (fpot_loop target_point rest 1 (calculate_distance c target_point) 0)

/-- Fallback of `point_at_distance_along_track` (lines 279–281): the last
track point (`track_coords[-1]`, an `IndexError` in Python on an empty
track, unreachable under the guard) paired with the bearing of the final
leg, or 0.0 for tracks shorter than 2 points. -/
noncomputable def padt_fallback (track_coords : List Coordinate) : Coordinate × ℝ :=
  (track_coords.getLastD cdefault,
   if 2 ≤ track_coords.length then
     calculate_bearing (track_coords.getD (track_coords.length - 2) cdefault)
       (track_coords.getLastD cdefault)
   else 0)

/-- Loop of `point_at_distance_along_track` (lines 269–281): walk legs
starting at index `i`; `fuel` counts the iterations left in
`range(start_index, len(track_coords) - 1)`. -/
noncomputable def padt_go (track_coords : List Coordinate) :
    ℕ → ℕ → ℝ → Coordinate × ℝ
  | _, 0, _ => padt_fallback track_coords
  | i, fuel + 1, remaining =>
      let seg_start := track_coords.getD i cdefault
      let seg_end := track_coords.getD (i + 1) cdefault
      let seg_len := calculate_distance seg_start seg_end
      if remaining ≤ seg_len then
        (project_coordinate seg_start (calculate_bearing seg_start seg_end) remaining,
         calculate_bearing seg_start seg_end)
      else
        padt_go track_coords (i + 1) fuel (remaining - seg_len)

/-- Source `point_at_distance_along_track` (lines 258–281): exact
coordinate and local bearing at `target_distance_m` along the track from
`start_index`; `None` under the `start_index >= len(track_coords) - 1`
guard (the `ℕ` subtraction agrees with the Python comparison for
`len < 2` as well, where the guard is also taken). -/
noncomputable def point_at_distance_along_track (track_coords : List Coordinate)
    (start_index : ℕ) (target_distance_m : ℝ) : Option (Coordinate × ℝ) :=
  if track_coords.length - 1 ≤ start_index then none
  else some (padt_go track_coords start_index
    (track_coords.length - 1 - start_index) target_distance_m)

/-- Marker generation for one reference point, mirroring lines 443–459 /
462–477: resolve the reference on the track, locate the target distance
past it, and skip the marker (`None`) whenever the locator yields no
result.  The perpendicular-line construction itself
(`create_perpendicular_marker_at_point`, lines 283–293) is inlined. -/
noncomputable def marker_for_reference (track_coords : List Coordinate)
    (ref : Coordinate) (corridor_distance target_distance_m : ℝ) :
    Option (List Coordinate) :=
  match find_point_on_track track_coords ref with
  | none => none
  | some i =>
      match point_at_distance_along_track track_coords i target_distance_m with
      | none => none
      | some (point_on_track, local_bearing) =>
          some [project_coordinate point_on_track
                  (pymod (local_bearing - 90) 360) corridor_distance,
                project_coordinate point_on_track
                  (pymod (local_bearing + 90) 360) corridor_distance]

/-- Total length of the `fuel` legs starting at index `i`, matching the
legs the `padt_go` loop walks. -/
noncomputable def legs_length (track_coords : List Coordinate) : ℕ → ℕ → ℝ
  | _, 0 => 0
  | i, fuel + 1 =>
      calculate_distance (track_coords.getD i cdefault)
        (track_coords.getD (i + 1) cdefault) +
      legs_length track_coords (i + 1) fuel

/-- Haversine distance is nonnegative. -/
lemma calculate_distance_nonneg (c1 c2 : Coordinate) :
    0 ≤ calculate_distance c1 c2 := by
  unfold calculate_distance
  have h := Real.arcsin_nonneg.mpr (Real.sqrt_nonneg
    (Real.sin ((radiansOf c2.lat - radiansOf c1.lat) / 2) ^ 2 +
      Real.cos (radiansOf c1.lat) * Real.cos (radiansOf c2.lat) *
        Real.sin ((radiansOf c2.lon - radiansOf c1.lon) / 2) ^ 2))
  positivity

/-- Sums of leg lengths are nonnegative. -/
lemma legs_length_nonneg (track_coords : List Coordinate) :
    ∀ fuel i, 0 ≤ legs_length track_coords i fuel
  | 0, _ => le_refl 0
  | fuel + 1, i => by
      rw [legs_length]
      have h1 := calculate_distance_nonneg (track_coords.getD i cdefault)
        (track_coords.getD (i + 1) cdefault)
      have h2 := legs_length_nonneg track_coords fuel (i + 1)
      linarith

/-- When the target exceeds the total length of the remaining legs, the
locator loop falls through to the fallback. -/
lemma padt_go_exhaust (track_coords : List Coordinate) :
    ∀ fuel i remaining, legs_length track_coords i fuel < remaining →
      padt_go track_coords i fuel remaining = padt_fallback track_coords
  | 0, _, _, _ => rfl
  | fuel + 1, i, remaining, h => by
      rw [legs_length] at h
      have hrest := legs_length_nonneg track_coords fuel (i + 1)
      rw [padt_go]
      rw [if_neg (by push_neg; linarith)]
      exact padt_go_exhaust track_coords fuel (i + 1) _ (by linarith)

/-- C2 amended: when the locator actually walks (start index strictly
before the last leg) and the cumulative leg lengths never reach the
target distance, it returns the last Track point together with the bearing
of the final leg, rather than failing. -/
theorem c2_exhaustion_fallback (track_coords : List Coordinate)
    (start_index : ℕ) (target_distance_m : ℝ)
    (hstart : start_index + 1 < track_coords.length)
    (hshort : legs_length track_coords start_index
      (track_coords.length - 1 - start_index) < target_distance_m) :
    point_at_distance_along_track track_coords start_index target_distance_m =
      some (track_coords.getLastD cdefault,
        calculate_bearing (track_coords.getD (track_coords.length - 2) cdefault)
          (track_coords.getLastD cdefault)) := by
  unfold point_at_distance_along_track
  rw [if_neg (by omega)]
  rw [padt_go_exhaust track_coords _ _ _ hshort]
  unfold padt_fallback
  rw [if_pos (by omega)]

/-- C2 counterexample: starting at the last index of a 2-point track with a
positive target (where walking forward exhausts the track immediately), the
locator returns `None`, not the last point with the final-leg bearing as
the claim states for every start index. -/
theorem c2_counterexample :
    point_at_distance_along_track [⟨0, 0, 0⟩, ⟨180, 0, 0⟩] 1 1 = none ∧
    legs_length [⟨0, 0, 0⟩, ⟨180, 0, 0⟩] 1 (2 - 1 - 1) < 1 ∧
    point_at_distance_along_track [⟨0, 0, 0⟩, ⟨180, 0, 0⟩] 1 1 ≠
      some (⟨180, 0, 0⟩, calculate_bearing ⟨0, 0, 0⟩ ⟨180, 0, 0⟩) := by
  refine ⟨?_, ?_, ?_⟩
  · rw [point_at_distance_along_track, if_pos (by norm_num)]
  · show legs_length _ 1 0 < 1
    rw [legs_length]; norm_num
  · rw [point_at_distance_along_track, if_pos (by norm_num)]
    simp

/-- C2 amended witness: walking a 2-point equatorial track (one leg of
length `π * 6371000` m) toward a 25 484 000 m target exhausts the track and
yields the last point with the final-leg bearing. -/
theorem c2_exhaustion_fallback_witness :
    point_at_distance_along_track [⟨0, 0, 0⟩, ⟨180, 0, 0⟩] 0 25484000 =
      some (⟨180, 0, 0⟩, calculate_bearing ⟨0, 0, 0⟩ ⟨180, 0, 0⟩) := by
  have h := c2_exhaustion_fallback [⟨0, 0, 0⟩, ⟨180, 0, 0⟩] 0 25484000
    (by norm_num)
    (by
      show legs_length _ 0 1 < 25484000
      rw [legs_length, legs_length]
      simp only [List.getD_cons_zero, List.getD_cons_succ, add_zero]
      rw [calculate_distance_antipode]
      nlinarith [pi_lt_four])
  simpa using h

/-- C9: the locator yields no result exactly under its
`start_index >= len(track_coords) - 1` guard, and the caller then skips
creating the marker for that reference point. -/
theorem c9_none_iff_skip (track_coords : List Coordinate) (start_index : ℕ)
    (target_distance_m corridor_distance t2 : ℝ) (ref : Coordinate) :
    (point_at_distance_along_track track_coords start_index target_distance_m = none ↔
      track_coords.length - 1 ≤ start_index) ∧
    (find_point_on_track track_coords ref = some start_index →
      track_coords.length - 1 ≤ start_index →
      marker_for_reference track_coords ref corridor_distance t2 = none) := by
  constructor
  · unfold point_at_distance_along_track
    by_cases h : track_coords.length - 1 ≤ start_index
    · simp [h]
    · simp [h]
  · intro hfind hge
    unfold marker_for_reference
    rw [hfind]
    have hnone : point_at_distance_along_track track_coords start_index t2 = none := by
      unfold point_at_distance_along_track
      rw [if_pos hge]
    simp [hnone]

/-- C9 witness: on a 2-point track, the reference sitting on the last track
point resolves to index 1, the locator returns `None` there, and the marker
is silently skipped. -/
theorem c9_none_iff_skip_witness :
    marker_for_reference [⟨0, 0, 0⟩, ⟨180, 0, 0⟩] ⟨180, 0, 0⟩ 300 1852 = none := by
  have hlt : calculate_distance (⟨180, 0, 0⟩ : Coordinate) ⟨180, 0, 0⟩ <
      calculate_distance ⟨0, 0, 0⟩ ⟨180, 0, 0⟩ := by
    rw [calculate_distance_self, calculate_distance_antipode]
    positivity
  have hfind : find_point_on_track [⟨0, 0, 0⟩, ⟨180, 0, 0⟩] ⟨180, 0, 0⟩ = some 1 := by
    show some (fpot_loop _ [⟨180, 0, 0⟩] 1 _ 0) = some 1
    rw [fpot_loop, if_pos hlt, fpot_loop]
  exact (c9_none_iff_skip [⟨0, 0, 0⟩, ⟨180, 0, 0⟩] 1 1852 300 1852 ⟨180, 0, 0⟩).2
    hfind (by norm_num)

/-- Property package for C10: `r` is an in-range track index whose distance
to the query point is minimal, and every strictly earlier index is strictly
farther (so the scan's strict `<` makes the earliest minimizer win). -/
def IsNearest (track_coords : List Coordinate) (target_point : Coordinate) (r : ℕ) :
    Prop :=
  r < track_coords.length ∧
  (∀ j, j < track_coords.length →
    calculate_distance (track_coords.getD r cdefault) target_point ≤
      calculate_distance (track_coords.getD j cdefault) target_point) ∧
  (∀ j, j < r →
    calculate_distance (track_coords.getD r cdefault) target_point <
      calculate_distance (track_coords.getD j cdefault) target_point)

/-- Loop invariant of the `find_point_on_track` scan: starting from the
suffix at position `i` with current best index `best < i` (whose distance
is minimal on the prefix and strictly smaller than every index before
`best`), the loop ends on an index that is nearest in the whole track. -/
lemma fpot_loop_spec (target_point : Coordinate) (track_coords : List Coordinate) :
    ∀ (l : List Coordinate) (i best : ℕ),
      (∀ k, l.getD k cdefault = track_coords.getD (i + k) cdefault) →
      l.length + i = track_coords.length →
      best < i →
      (∀ j, j < i →
        calculate_distance (track_coords.getD best cdefault) target_point ≤
          calculate_distance (track_coords.getD j cdefault) target_point) →
      (∀ j, j < best →
        calculate_distance (track_coords.getD best cdefault) target_point <
          calculate_distance (track_coords.getD j cdefault) target_point) →
      IsNearest track_coords target_point
        (fpot_loop target_point l i
          (calculate_distance (track_coords.getD best cdefault) target_point) best) := by
  intro l
  induction l with
  | nil =>
      intro i best hk hlen hbi hpref hstrict
      rw [fpot_loop]
      simp only [List.length_nil, Nat.zero_add] at hlen
      refine ⟨by omega, fun j hj => hpref j (by omega), hstrict⟩
  | cons c rest ih =>
      intro i best hk hlen hbi hpref hstrict
      have hc : c = track_coords.getD i cdefault := by
        simpa using hk 0
      have hk' : ∀ k, rest.getD k cdefault = track_coords.getD (i + 1 + k) cdefault := by
        intro k
        have h2 := hk (k + 1)
        rw [List.getD_cons_succ] at h2
        rw [h2]
        congr 1
        omega
      have hlen' : rest.length + (i + 1) = track_coords.length := by
        simp at hlen
        omega
      rw [fpot_loop]
      by_cases hlt : calculate_distance c target_point <
          calculate_distance (track_coords.getD best cdefault) target_point
      · rw [if_pos hlt]
        rw [hc] at hlt ⊢
        refine ih (i + 1) i hk' hlen' (by omega) ?_ ?_
        · intro j hj
          rcases Nat.lt_succ_iff_lt_or_eq.mp hj with hj' | hj'
          · exact le_of_lt (lt_of_lt_of_le hlt (hpref j hj'))
          · subst hj'; exact le_refl _
        · intro j hj
          exact lt_of_lt_of_le hlt (hpref j hj)
      · rw [if_neg hlt]
        refine ih (i + 1) best hk' hlen' (by omega) ?_ hstrict
        intro j hj
        rcases Nat.lt_succ_iff_lt_or_eq.mp hj with hj' | hj'
        · exact hpref j hj'
        · subst hj'
          rw [← hc]
          exact not_lt.mp hlt

/-- C10: the resolver returns `None` exactly on the empty track, and on a
non-empty track it returns the smallest index attaining the minimum
distance to the query point (earlier index wins ties, strict comparison),
so its result is deterministic. -/
theorem c10_nearest_spec (track_coords : List Coordinate) (target_point : Coordinate) :
    (find_point_on_track track_coords target_point = none ↔ track_coords = []) ∧
    (∀ i, find_point_on_track track_coords target_point = some i →
      IsNearest track_coords target_point i) := by
  constructor
  · cases track_coords <;> simp [find_point_on_track]
  · intro i hfind
    cases track_coords with
    | nil => simp [find_point_on_track] at hfind
    | cons c rest =>
        rw [find_point_on_track] at hfind
        have hi : fpot_loop target_point rest 1
            (calculate_distance c target_point) 0 = i := by
          simpa using hfind
        subst hi
        have hc : c = (c :: rest).getD 0 cdefault := rfl
        rw [hc]
        refine fpot_loop_spec target_point (c :: rest) rest 1 0 ?_ (by simp) (by omega)
          ?_ ?_
        · intro k
          rw [Nat.add_comm 1 k, List.getD_cons_succ]
        · intro j hj
          interval_cases j
          exact le_refl _
        · intro j hj
          omega

/-- C10 witness: on the singleton track the resolver returns index 0, which
is nearest. -/
theorem c10_nearest_spec_witness :
    IsNearest [⟨0, 0, 0⟩] ⟨0, 0, 0⟩ 0 := by
  refine (c10_nearest_spec [⟨0, 0, 0⟩] ⟨0, 0, 0⟩).2 0 ?_
  rw [find_point_on_track, fpot_loop]

/-!
Turning-point ordering (line 439):
`tp_coords.sort(key=lambda x: int(x[0].split()[-1]) if x[0].split()[-1].isdigit() else 0)`.
A Python `str` is a sequence of code points, embedded here as `List Char`
so the string operations compute in the kernel.  `tokens` models
`str.split()` (split on runs of whitespace, dropping empty pieces; the TP
names at hand contain only plain spaces), `isDigitToken` models
`str.isdigit` on a token (False on the empty string), and `tokToNat`
models `int()` on an all-digit token.
-/

/-- Helper for `tokens`: `cur` holds the current (reversed) token. -/
def tokensAux : List Char → List Char → List (List Char)
  | [], cur => if cur = [] then [] else [cur.reverse]
  | c :: rest, cur =>
      if c = ' ' then
        (if cur = [] then tokensAux rest [] else cur.reverse :: tokensAux rest [])
      else tokensAux rest (c :: cur)

/-- Python `name.split()` on space-separated names. -/
def tokens (s : List Char) : List (List Char) := tokensAux s []

/-- Python `tok.isdigit()` for ASCII tokens (False when empty). -/
def isDigitToken (t : List Char) : Bool := !t.isEmpty && t.all Char.isDigit

/-- Python `int(tok)` for an all-digit token. -/
def tokToNat (t : List Char) : ℕ := t.foldl (fun n c => 10 * n + (c.toNat - 48)) 0

/-- Sort key of line 439: the trailing integer of the name if its last
whitespace-separated token is all digits, else 0.  (`split()[-1]` would
raise in Python only for an all-whitespace name; such names cannot occur
here since every entry name starts with `TP `; `getLastD` covers it.) -/
def tpKey (name : List Char) : ℕ :=
  if isDigitToken ((tokens name).getLastD []) then tokToNat ((tokens name).getLastD [])
  else 0

/-- Line 439: `tp_coords.sort(key=...)`.  Python's sort is stable and
ascending on the key; `List.insertionSort` with the key-`≤` relation is the
same stable sort. -/
def sort_tp_coords (tp_coords : List (List Char × Coordinate)) :
    List (List Char × Coordinate) :=
  List.insertionSort (fun a b => tpKey a.1 ≤ tpKey b.1) tp_coords

/-- C7 counterexample: a turning point with non-numeric suffix gets key 0
and is sorted FIRST, before `TP 1` — not last as the claim states. -/
theorem c7_counterexample :
    sort_tp_coords
      [(['T', 'P', ' ', 'X'], ⟨0, 0, 0⟩), (['T', 'P', ' ', '1'], ⟨0, 0, 0⟩)] =
      [(['T', 'P', ' ', 'X'], ⟨0, 0, 0⟩), (['T', 'P', ' ', '1'], ⟨0, 0, 0⟩)] ∧
    tpKey ['T', 'P', ' ', 'X'] = 0 ∧ tpKey ['T', 'P', ' ', '1'] = 1 := by
  refine ⟨?_, by decide, by decide⟩
  show List.insertionSort _ _ = _
  rw [List.insertionSort, List.insertionSort, List.insertionSort,
    List.orderedInsert, List.orderedInsert]
  rw [if_pos (by decide : tpKey ['T', 'P', ' ', 'X'] ≤ tpKey ['T', 'P', ' ', '1'])]

/-- C7 amended: marker generation orders turning points ascending by the
trailing integer of the name; a non-numeric or missing suffix is treated as
key 0 and therefore sorts FIRST (before every positively numbered turning
point), not last. -/
theorem c7_sort_order (tp_coords : List (List Char × Coordinate)) :
    (sort_tp_coords tp_coords).Perm tp_coords ∧
    (sort_tp_coords tp_coords).Pairwise (fun a b => tpKey a.1 ≤ tpKey b.1) ∧
    (∀ name : List Char, isDigitToken ((tokens name).getLastD []) = false →
      tpKey name = 0) := by
  haveI : IsTotal (List Char × Coordinate) (fun a b => tpKey a.1 ≤ tpKey b.1) :=
    ⟨fun a b => Nat.le_total _ _⟩
  haveI : IsTrans (List Char × Coordinate) (fun a b => tpKey a.1 ≤ tpKey b.1) :=
    ⟨fun _ _ _ hab hbc => Nat.le_trans hab hbc⟩
  refine ⟨List.perm_insertionSort _ _, List.sorted_insertionSort _ _, ?_⟩
  intro name h
  unfold tpKey
  rw [if_neg (by simp only [h]; exact Bool.false_ne_true)]

/-- C7 amended witness: the singleton list with a non-numeric suffix sorts
to itself (a permutation of itself) with key 0. -/
theorem c7_sort_order_witness :
    (sort_tp_coords [(['T', 'P', ' ', 'X'], ⟨0, 0, 0⟩)]).Perm
      [(['T', 'P', ' ', 'X'], ⟨0, 0, 0⟩)] ∧
    tpKey ['T', 'P', ' ', 'X'] = 0 := by
  obtain ⟨h1, _, h3⟩ := c7_sort_order [(['T', 'P', ' ', 'X'], ⟨0, 0, 0⟩)]
  exact ⟨h1, h3 _ (by decide)⟩

/-- Wrap-around handling of lines 183–187: `diff -= 360` when above 180,
`diff += 360` when below −180, otherwise unchanged. -/
noncomputable def codeSignedDiff (diff : ℝ) : ℝ :=
  if 180 < diff then diff - 360 else if diff < -180 then diff + 360 else diff

/-- Local heading of the corridor projector at track index `i`
(lines 166–189): bearing to the next point at the start, bearing from the
previous point at the end, and the wrap-corrected average bearing at
interior points. -/
noncomputable def track_bearing_at (track_coords : List Coordinate) (i : ℕ) : ℝ :=
  if i = 0 then
    calculate_bearing (track_coords.getD 0 cdefault) (track_coords.getD 1 cdefault)
  else if i = track_coords.length - 1 then
    calculate_bearing (track_coords.getD (i - 1) cdefault) (track_coords.getD i cdefault)
  else
    let bearing_in := calculate_bearing (track_coords.getD (i - 1) cdefault)
      (track_coords.getD i cdefault)
    let bearing_out := calculate_bearing (track_coords.getD i cdefault)
      (track_coords.getD (i + 1) cdefault)
    pymod (bearing_in + codeSignedDiff (bearing_out - bearing_in) / 2) 360

/-- Source `generate_corridor_for_continuous_track` (lines 151–202): for
each track index, project left/right boundary points at ±90° from the
local heading, at exactly `corridor_distance`; empty output for tracks
shorter than 2 points.  The per-index appends of the Python loop are the
two maps over `List.range`. -/
noncomputable def generate_corridor_for_continuous_track
    (track_coords : List Coordinate) (corridor_distance : ℝ) :
    List Coordinate × List Coordinate :=
  if track_coords.length < 2 then ([], [])
  else
    ((List.range track_coords.length).map fun i =>
        project_coordinate (track_coords.getD i cdefault)
          (pymod (track_bearing_at track_coords i - 90) 360) corridor_distance,
     (List.range track_coords.length).map fun i =>
        project_coordinate (track_coords.getD i cdefault)
          (pymod (track_bearing_at track_coords i + 90) 360) corridor_distance)

/-- Python `%` with a positive modulus lands in `[0, m)`. -/
lemma pymod_nonneg_lt (x m : ℝ) (hm : 0 < m) : 0 ≤ pymod x m ∧ pymod x m < m := by
  have h1 : (⌊x / m⌋ : ℝ) ≤ x / m := Int.floor_le _
  have h2 : x / m < ⌊x / m⌋ + 1 := Int.lt_floor_add_one _
  have hx : m * (x / m) = x := by field_simp
  have h3 : m * (⌊x / m⌋ : ℝ) ≤ m * (x / m) := by nlinarith
  have h4 : m * (x / m) < m * ((⌊x / m⌋ : ℝ) + 1) := by nlinarith
  rw [hx] at h3 h4
  have h5 : m * ((⌊x / m⌋ : ℝ) + 1) = m * (⌊x / m⌋ : ℝ) + m := by ring
  unfold pymod
  constructor <;> linarith

/-- Python `%` leaves a value already in `[0, m)` unchanged. -/
lemma pymod_eq_self {x m : ℝ} (hm : 0 < m) (h0 : 0 ≤ x) (h1 : x < m) :
    pymod x m = x := by
  unfold pymod
  have hfl : ⌊x / m⌋ = 0 := by
    rw [Int.floor_eq_zero_iff]
    exact ⟨div_nonneg h0 hm.le, (div_lt_one hm).mpr h1⟩
  rw [hfl]
  simp

/-- Bearings produced by `calculate_bearing` lie in `[0, 360)`. -/
lemma calculate_bearing_mem (c1 c2 : Coordinate) :
    0 ≤ calculate_bearing c1 c2 ∧ calculate_bearing c1 c2 < 360 := by
  simp only [calculate_bearing]
  exact pymod_nonneg_lt _ 360 (by norm_num)

/-- Value of `math.atan2 0 x` for positive `x`. -/
lemma arctan2_zero_of_pos {x : ℝ} (hx : 0 < x) : arctan2 0 x = 0 := by
  unfold arctan2
  rw [show (⟨x, 0⟩ : ℂ) = ((x : ℝ) : ℂ) from by apply Complex.ext <;> simp]
  exact Complex.arg_ofReal_of_nonneg hx.le

/-- Value of `math.atan2 0 x` for negative `x`. -/
lemma arctan2_zero_of_neg {x : ℝ} (hx : x < 0) : arctan2 0 x = π := by
  unfold arctan2
  rw [show (⟨x, 0⟩ : ℂ) = ((x : ℝ) : ℂ) from by apply Complex.ext <;> simp]
  exact Complex.arg_ofReal_of_neg hx

/-- One degree in radians is a positive angle below π. -/
lemma sin_pi_div_180_pos : 0 < Real.sin (π / 180) :=
  Real.sin_pos_of_pos_of_lt_pi (by positivity) (by nlinarith [pi_pos])

/-- Bearing of the due-south leg from latitude 1° to the origin. -/
lemma bearing_south : calculate_bearing ⟨0, 1, 0⟩ ⟨0, 0, 0⟩ = 180 := by
  unfold calculate_bearing radiansOf
  norm_num
  rw [arctan2_zero_of_neg (neg_lt_zero.mpr sin_pi_div_180_pos)]
  unfold degreesOf
  rw [show π * 180 / π = 180 from by field_simp]
  unfold pymod
  norm_num [Int.floor_eq_iff]

/-- Bearing of the due-north leg from the origin to latitude 1°. -/
lemma bearing_north : calculate_bearing ⟨0, 0, 0⟩ ⟨0, 1, 0⟩ = 0 := by
  unfold calculate_bearing radiansOf
  norm_num
  rw [arctan2_zero_of_pos sin_pi_div_180_pos]
  unfold degreesOf
  norm_num
  unfold pymod
  norm_num [Int.floor_eq_iff]

/-- Definition following the words of the spec for C6: the unique
representative of `diff` modulo 360 lying in the half-open interval
(−180, 180]. -/
noncomputable def specSignedDiff (diff : ℝ) : ℝ := diff - 360 * ⌈diff / 360 - 1 / 2⌉

/-- Sanity check that `specSignedDiff` matches the spec's words: it is
congruent to `diff` modulo 360 and lies in (−180, 180]. -/
lemma specSignedDiff_spec (diff : ℝ) :
    -180 < specSignedDiff diff ∧ specSignedDiff diff ≤ 180 ∧
      ∃ k : ℤ, specSignedDiff diff = diff - 360 * k := by
  have h1 : (diff / 360 - 1 / 2 : ℝ) ≤ ⌈diff / 360 - 1 / 2⌉ := Int.le_ceil _
  have h2 : (⌈diff / 360 - 1 / 2⌉ : ℝ) < (diff / 360 - 1 / 2) + 1 :=
    Int.ceil_lt_add_one _
  refine ⟨?_, ?_, ⟨⌈diff / 360 - 1 / 2⌉, rfl⟩⟩ <;> unfold specSignedDiff <;> linarith

/-- C6 counterexample: on the north-then-south-then-north track the
bearings are 180 (incoming) and 0 (outgoing), so the raw difference is
exactly −180.  The code keeps −180 (closed interval) and offsets at heading
90, while the claimed normalization into (−180, 180] maps it to +180 and
would give heading 270. -/
theorem c6_counterexample :
    track_bearing_at [⟨0, 1, 0⟩, ⟨0, 0, 0⟩, ⟨0, 1, 0⟩] 1 = 90 ∧
    pymod (calculate_bearing ⟨0, 1, 0⟩ ⟨0, 0, 0⟩ +
        specSignedDiff (calculate_bearing ⟨0, 0, 0⟩ ⟨0, 1, 0⟩ -
          calculate_bearing ⟨0, 1, 0⟩ ⟨0, 0, 0⟩) / 2) 360 = 270 ∧
    (90 : ℝ) ≠ 270 := by
  have hceil : ⌈(-1 : ℝ)⌉ = -1 := by
    rw [show (-1 : ℝ) = ((-1 : ℤ) : ℝ) from by push_cast; ring]
    exact Int.ceil_intCast _
  have hspec : specSignedDiff (-180) = 180 := by
    unfold specSignedDiff
    norm_num [hceil]
  refine ⟨?_, ?_, by norm_num⟩
  · rw [track_bearing_at, if_neg (by norm_num), if_neg (by norm_num)]
    simp only [Nat.sub_self, List.getD_cons_zero, List.getD_cons_succ]
    rw [bearing_south, bearing_north]
    rw [show (0 : ℝ) - 180 = -180 from by norm_num]
    rw [codeSignedDiff, if_neg (by norm_num), if_neg (by norm_num)]
    rw [show (180 : ℝ) + -180 / 2 = 90 from by norm_num]
    exact pymod_eq_self (by norm_num) (by norm_num) (by norm_num)
  · rw [bearing_south, bearing_north]
    rw [show (0 : ℝ) - 180 = -180 from by norm_num]
    rw [hspec]
    rw [show (180 : ℝ) + 180 / 2 = 270 from by norm_num]
    exact pymod_eq_self (by norm_num) (by norm_num) (by norm_num)

/-- C6 amended: at every interior track index the heading used for
offsetting is `incoming + signed_diff/2` modulo 360, where `signed_diff`
is congruent to `outgoing - incoming` modulo 360 and lies in the CLOSED
interval [−180, 180] (a raw difference of exactly −180 is kept as −180,
not mapped to +180). -/
theorem c6_bisector_characterization (track_coords : List Coordinate) (i : ℕ)
    (h0 : 0 < i) (hlast : i + 1 < track_coords.length) :
    ∃ sd : ℝ,
      (∃ k : ℤ,
        sd = (calculate_bearing (track_coords.getD i cdefault)
                (track_coords.getD (i + 1) cdefault) -
              calculate_bearing (track_coords.getD (i - 1) cdefault)
                (track_coords.getD i cdefault)) + 360 * k) ∧
      -180 ≤ sd ∧ sd ≤ 180 ∧
      track_bearing_at track_coords i =
        pymod (calculate_bearing (track_coords.getD (i - 1) cdefault)
            (track_coords.getD i cdefault) + sd / 2) 360 := by
  have hIn := calculate_bearing_mem (track_coords.getD (i - 1) cdefault)
    (track_coords.getD i cdefault)
  have hOut := calculate_bearing_mem (track_coords.getD i cdefault)
    (track_coords.getD (i + 1) cdefault)
  refine ⟨codeSignedDiff
    (calculate_bearing (track_coords.getD i cdefault)
        (track_coords.getD (i + 1) cdefault) -
      calculate_bearing (track_coords.getD (i - 1) cdefault)
        (track_coords.getD i cdefault)), ?_, ?_, ?_, ?_⟩
  · unfold codeSignedDiff
    split_ifs with h1 h2
    · exact ⟨-1, by push_cast; ring⟩
    · exact ⟨1, by push_cast; ring⟩
    · exact ⟨0, by push_cast; ring⟩
  · unfold codeSignedDiff
    split_ifs with h1 h2 <;> linarith [hIn.1, hIn.2, hOut.1, hOut.2]
  · unfold codeSignedDiff
    split_ifs with h1 h2 <;> linarith [hIn.1, hIn.2, hOut.1, hOut.2]
  · rw [track_bearing_at, if_neg (by omega), if_neg (by omega)]

/-- C6 amended witness: the characterization instantiated on the concrete
north-south-north track at its interior index. -/
theorem c6_bisector_characterization_witness :
    ∃ sd : ℝ,
      (∃ k : ℤ,
        sd = (calculate_bearing
                (([⟨0, 1, 0⟩, ⟨0, 0, 0⟩, ⟨0, 1, 0⟩] : List Coordinate).getD 1 cdefault)
                (([⟨0, 1, 0⟩, ⟨0, 0, 0⟩, ⟨0, 1, 0⟩] : List Coordinate).getD 2 cdefault) -
              calculate_bearing
                (([⟨0, 1, 0⟩, ⟨0, 0, 0⟩, ⟨0, 1, 0⟩] : List Coordinate).getD 0 cdefault)
                (([⟨0, 1, 0⟩, ⟨0, 0, 0⟩, ⟨0, 1, 0⟩] : List Coordinate).getD 1 cdefault)) +
          360 * k) ∧
      -180 ≤ sd ∧ sd ≤ 180 ∧
      track_bearing_at [⟨0, 1, 0⟩, ⟨0, 0, 0⟩, ⟨0, 1, 0⟩] 1 =
        pymod (calculate_bearing
            (([⟨0, 1, 0⟩, ⟨0, 0, 0⟩, ⟨0, 1, 0⟩] : List Coordinate).getD 0 cdefault)
            (([⟨0, 1, 0⟩, ⟨0, 0, 0⟩, ⟨0, 1, 0⟩] : List Coordinate).getD 1 cdefault) +
            sd / 2) 360 :=
  c6_bisector_characterization [⟨0, 1, 0⟩, ⟨0, 0, 0⟩, ⟨0, 1, 0⟩] 1 (by norm_num)
    (by norm_num)

/-- Algebraic core of the offset invariant: the squared norm of the
`atan2` arguments in `project_coordinate` equals `cos²φ · (1 − sin²(lat₂))`
(a consequence of the three Pythagorean identities). -/
lemma xy_norm (A B C S t u : ℝ) (h1 : A^2 + B^2 = 1) (h2 : S^2 + C^2 = 1)
    (h3 : u^2 + t^2 = 1) :
    (C - A * (A*C + B*S*t))^2 + (u*S*B)^2 = B^2 * (1 - (A*C + B*S*t)^2) := by
  linear_combination (C^2*(A^2-1) + 2*A*B*C*S*t + B^2*S^2*t^2) * h1 +
    (B^2*S^2) * h3 + B^2 * h2

set_option maxHeartbeats 1000000 in
/-- Radians-level offset invariant: applying the Haversine central-angle
formula of `calculate_distance` to a point and its direct spherical
projection recovers the traveled central angle `delta`, for latitudes in
[−π/2, π/2] and `delta ∈ [0, π]`. -/
lemma hav_project (phi theta delta : ℝ) (hpl : -(π/2) ≤ phi) (hpu : phi ≤ π/2)
    (hd0 : 0 ≤ delta) (hdp : delta ≤ π) :
    2 * Real.arcsin (Real.sqrt (
      Real.sin ((Real.arcsin (Real.sin phi * Real.cos delta +
          Real.cos phi * Real.sin delta * Real.cos theta) - phi) / 2) ^ 2 +
      Real.cos phi * Real.cos (Real.arcsin (Real.sin phi * Real.cos delta +
          Real.cos phi * Real.sin delta * Real.cos theta)) *
        Real.sin ((arctan2 (Real.sin theta * Real.sin delta * Real.cos phi)
          (Real.cos delta - Real.sin phi *
            Real.sin (Real.arcsin (Real.sin phi * Real.cos delta +
              Real.cos phi * Real.sin delta * Real.cos theta)))) / 2) ^ 2)) = delta := by
  set s2 := Real.sin phi * Real.cos delta + Real.cos phi * Real.sin delta * Real.cos theta
    with hs2
  have hid : 1 - (Real.sin phi * Real.cos delta +
      Real.cos phi * Real.sin delta * Real.cos theta)^2 =
      (Real.sin delta * Real.sin theta)^2 +
      (Real.sin phi * Real.sin delta * Real.cos theta - Real.cos phi * Real.cos delta)^2 := by
    linear_combination (-(Real.cos delta^2 + Real.sin delta^2 * Real.cos theta^2)) *
        Real.sin_sq_add_cos_sq phi + (-1 : ℝ) * Real.sin_sq_add_cos_sq delta +
      (-(Real.sin delta^2)) * Real.sin_sq_add_cos_sq theta
  have hs2sq : s2^2 ≤ 1 := by
    rw [hs2]
    nlinarith [hid, sq_nonneg (Real.sin delta * Real.sin theta),
      sq_nonneg (Real.sin phi * Real.sin delta * Real.cos theta -
        Real.cos phi * Real.cos delta)]
  have hs2a : -1 ≤ s2 := by nlinarith [hs2sq, sq_nonneg (s2+1)]
  have hs2b : s2 ≤ 1 := by nlinarith [hs2sq, sq_nonneg (s2-1)]
  have hsin2 : Real.sin (Real.arcsin s2) = s2 := Real.sin_arcsin hs2a hs2b
  have hcosphi : 0 ≤ Real.cos phi := Real.cos_nonneg_of_mem_Icc ⟨hpl, hpu⟩
  have hcos2 : Real.cos (Real.arcsin s2) = Real.sqrt (1 - s2^2) := Real.cos_arcsin s2
  have h1s2 : 0 ≤ 1 - s2^2 := by nlinarith
  rw [hsin2]
  set lam := arctan2 (Real.sin theta * Real.sin delta * Real.cos phi)
    (Real.cos delta - Real.sin phi * s2) with hlam
  have hkey : (Real.cos delta - Real.sin phi * s2)^2 +
      (Real.sin theta * Real.sin delta * Real.cos phi)^2 =
      Real.cos phi^2 * (1 - s2^2) := by
    rw [hs2]
    have h := xy_norm (Real.sin phi) (Real.cos phi) (Real.cos delta) (Real.sin delta)
      (Real.cos theta) (Real.sin theta) (Real.sin_sq_add_cos_sq phi)
      (Real.sin_sq_add_cos_sq delta) (Real.sin_sq_add_cos_sq theta)
    linear_combination h
  have hcoslam : Real.cos phi * Real.cos (Real.arcsin s2) * Real.cos lam +
      Real.sin phi * s2 = Real.cos delta := by
    by_cases hxy : (Real.cos delta - Real.sin phi * s2)^2 +
        (Real.sin theta * Real.sin delta * Real.cos phi)^2 = 0
    · have hx0 : Real.cos delta - Real.sin phi * s2 = 0 := by
        have hx2 : (Real.cos delta - Real.sin phi * s2)^2 = 0 := by
          nlinarith [sq_nonneg (Real.cos delta - Real.sin phi * s2),
            sq_nonneg (Real.sin theta * Real.sin delta * Real.cos phi)]
        exact sq_eq_zero_iff.mp hx2
      have hy0 : Real.sin theta * Real.sin delta * Real.cos phi = 0 := by
        have hy2 : (Real.sin theta * Real.sin delta * Real.cos phi)^2 = 0 := by
          nlinarith [sq_nonneg (Real.cos delta - Real.sin phi * s2),
            sq_nonneg (Real.sin theta * Real.sin delta * Real.cos phi)]
        exact sq_eq_zero_iff.mp hy2
      have hz : (⟨Real.cos delta - Real.sin phi * s2,
          Real.sin theta * Real.sin delta * Real.cos phi⟩ : ℂ) = 0 :=
        Complex.ext_iff.mpr ⟨hx0, hy0⟩
      have hlam0 : lam = 0 := by
        rw [hlam]; unfold arctan2; rw [hz, Complex.arg_zero]
      rw [hlam0, Real.cos_zero, mul_one]
      have hBC : (Real.cos phi * Real.cos (Real.arcsin s2))^2 = 0 := by
        rw [hcos2, mul_pow, Real.sq_sqrt h1s2]
        nlinarith [hkey]
      have hBC0 : Real.cos phi * Real.cos (Real.arcsin s2) = 0 :=
        sq_eq_zero_iff.mp hBC
      rw [hBC0]
      linarith
    · have hzne : (⟨Real.cos delta - Real.sin phi * s2,
          Real.sin theta * Real.sin delta * Real.cos phi⟩ : ℂ) ≠ 0 := by
        intro h
        apply hxy
        have hre : Real.cos delta - Real.sin phi * s2 = 0 := congrArg Complex.re h
        have him : Real.sin theta * Real.sin delta * Real.cos phi = 0 :=
          congrArg Complex.im h
        rw [hre, him]; ring
      have hcosarg : Real.cos lam = (Real.cos delta - Real.sin phi * s2) /
          Complex.abs ⟨Real.cos delta - Real.sin phi * s2,
            Real.sin theta * Real.sin delta * Real.cos phi⟩ := by
        rw [hlam]; unfold arctan2; exact Complex.cos_arg hzne
      have habs : Complex.abs (⟨Real.cos delta - Real.sin phi * s2,
          Real.sin theta * Real.sin delta * Real.cos phi⟩ : ℂ) =
          Real.cos phi * Real.cos (Real.arcsin s2) := by
        rw [Complex.abs_apply, Complex.normSq_mk]
        rw [show (Real.cos delta - Real.sin phi * s2) *
              (Real.cos delta - Real.sin phi * s2) +
            Real.sin theta * Real.sin delta * Real.cos phi *
              (Real.sin theta * Real.sin delta * Real.cos phi) =
            (Real.cos delta - Real.sin phi * s2)^2 +
            (Real.sin theta * Real.sin delta * Real.cos phi)^2 from by ring]
        rw [hkey, hcos2, Real.sqrt_mul (sq_nonneg _), Real.sqrt_sq hcosphi]
      have hpos : 0 < (Real.cos delta - Real.sin phi * s2)^2 +
          (Real.sin theta * Real.sin delta * Real.cos phi)^2 :=
        lt_of_le_of_ne (by positivity) (Ne.symm hxy)
      have hBCpos : 0 < Real.cos phi * Real.cos (Real.arcsin s2) := by
        rw [← habs, Complex.abs_apply]
        apply Real.sqrt_pos.mpr
        rw [Complex.normSq_mk]
        nlinarith [hpos]
      rw [hcosarg, habs]
      have hcancel : Real.cos phi * Real.cos (Real.arcsin s2) *
          ((Real.cos delta - Real.sin phi * s2) /
            (Real.cos phi * Real.cos (Real.arcsin s2))) =
          Real.cos delta - Real.sin phi * s2 := by
        field_simp
      rw [hcancel]
      ring
  have hhalf : ∀ u : ℝ, Real.sin (u/2)^2 = (1 - Real.cos u)/2 := by
    intro u
    have h1 := Real.cos_sq (u/2)
    have h2 := Real.sin_sq_add_cos_sq (u/2)
    rw [show 2*(u/2) = u from by ring] at h1
    linarith
  have ha : Real.sin ((Real.arcsin s2 - phi)/2)^2 +
      Real.cos phi * Real.cos (Real.arcsin s2) * Real.sin (lam/2)^2 =
      (1 - Real.cos delta)/2 := by
    rw [hhalf, hhalf, Real.cos_sub, hsin2]
    linear_combination (-(1:ℝ)/2) * hcoslam
  rw [ha, show (1 - Real.cos delta)/2 = Real.sin (delta/2)^2 from (hhalf delta).symm]
  rw [Real.sqrt_sq (Real.sin_nonneg_of_nonneg_of_le_pi (by linarith) (by linarith))]
  rw [Real.arcsin_sin (by linarith) (by linarith)]
  ring

/-- Degrees-to-radians round trip. -/
lemma radiansOf_degreesOf (x : ℝ) : radiansOf (degreesOf x) = x := by
  unfold radiansOf degreesOf
  field_simp

/-- Offset invariant at the level of the source functions: the Haversine
distance from a coordinate to its spherical projection is exactly the
projection distance, for latitudes within [−90°, 90°] and distances up to
half the circumference `π * 6371000`. -/
lemma calculate_distance_project (c : Coordinate) (b d : ℝ)
    (hl1 : -90 ≤ c.lat) (hl2 : c.lat ≤ 90) (hd0 : 0 ≤ d)
    (hdpi : d ≤ π * 6371000) :
    calculate_distance c (project_coordinate c b d) = d := by
  have hphl : -(π/2) ≤ radiansOf c.lat := by
    unfold radiansOf; nlinarith [pi_pos]
  have hphu : radiansOf c.lat ≤ π/2 := by
    unfold radiansOf; nlinarith [pi_pos]
  have hd0' : 0 ≤ d / 6371000 := by positivity
  have hdp' : d / 6371000 ≤ π := by
    rw [div_le_iff (by norm_num)]; linarith
  have h := hav_project (radiansOf c.lat) (radiansOf b) (d / 6371000)
    hphl hphu hd0' hdp'
  simp only [calculate_distance, project_coordinate, radiansOf_degreesOf]
  rw [add_sub_cancel_left, h]
  field_simp

/-- Reading an index below `n` from `(List.range n).map f`. -/
lemma getD_map_range {n i : ℕ} (h : i < n) (f : ℕ → Coordinate) :
    ((List.range n).map f).getD i cdefault = f i := by
  rw [List.getD_eq_getElem?_getD, List.getElem?_map, List.getElem?_range h]
  rfl

/-- An in-range `getD` read is a member of the list. -/
lemma getD_mem {l : List Coordinate} {i : ℕ} (h : i < l.length) :
    l.getD i cdefault ∈ l := by
  rw [List.getD_eq_getElem?_getD, List.getElem?_eq_getElem h]
  exact List.getElem_mem _

/-- C1 counterexample: over the exact spherical model the claim fails for
large distances: projecting from the origin by a full circumference
`2π · 6371000` returns the origin itself, whose distance is 0, not
`2π · 6371000` (nor within 0.5 m of it). -/
theorem c1_counterexample :
    calculate_distance ⟨0, 0, 0⟩
      (project_coordinate ⟨0, 0, 0⟩ 0 (2 * π * 6371000)) ≠ 2 * π * 6371000 := by
  have hdelta : 2 * π * 6371000 / 6371000 = 2 * π := by
    rw [mul_div_assoc]; norm_num
  have hproj : project_coordinate ⟨0, 0, 0⟩ 0 (2 * π * 6371000) = ⟨0, 0, 0⟩ := by
    simp only [project_coordinate]
    rw [hdelta]
    norm_num [radiansOf, Real.sin_two_pi, Real.cos_two_pi]
    rw [arctan2_zero_of_pos one_pos]
    norm_num [degreesOf]
  rw [hproj, calculate_distance_self]
  exact ne_of_lt (by positivity)

/-- C1 amended: for every track with at least 2 points whose latitudes lie
in [−90°, 90°], every corridor distance in [0, π · 6371000], and every
track index, the great-circle distance from the track point to the
corresponding left and right corridor points is exactly the corridor
distance (in the exact spherical model; the floating tolerance of the
claim becomes exact equality here). -/
theorem c1_offset_exact (track_coords : List Coordinate) (corridor_distance : ℝ)
    (i : ℕ) (htrack : 2 ≤ track_coords.length) (hi : i < track_coords.length)
    (hlat : ∀ c ∈ track_coords, -90 ≤ c.lat ∧ c.lat ≤ 90)
    (hd0 : 0 ≤ corridor_distance) (hdpi : corridor_distance ≤ π * 6371000) :
    calculate_distance (track_coords.getD i cdefault)
      ((generate_corridor_for_continuous_track track_coords
        corridor_distance).1.getD i cdefault) = corridor_distance ∧
    calculate_distance (track_coords.getD i cdefault)
      ((generate_corridor_for_continuous_track track_coords
        corridor_distance).2.getD i cdefault) = corridor_distance := by
  obtain ⟨hla, hlb⟩ := hlat _ (getD_mem hi)
  unfold generate_corridor_for_continuous_track
  rw [if_neg (by omega)]
  constructor
  · show calculate_distance _ (((List.range _).map _).getD i cdefault) = _
    rw [getD_map_range hi]
    exact (calculate_distance_project _ _ _ hla hlb hd0 hdpi).trans rfl
  · show calculate_distance _ (((List.range _).map _).getD i cdefault) = _
    rw [getD_map_range hi]
    exact (calculate_distance_project _ _ _ hla hlb hd0 hdpi).trans rfl

/-- C1 amended witness: a concrete 2-point track at the default corridor
distance of 300 m, checked at index 0. -/
theorem c1_offset_exact_witness :
    calculate_distance (([⟨0, 0, 0⟩, ⟨0, 1, 0⟩] : List Coordinate).getD 0 cdefault)
      ((generate_corridor_for_continuous_track [⟨0, 0, 0⟩, ⟨0, 1, 0⟩]
        300).1.getD 0 cdefault) = 300 ∧
    calculate_distance (([⟨0, 0, 0⟩, ⟨0, 1, 0⟩] : List Coordinate).getD 0 cdefault)
      ((generate_corridor_for_continuous_track [⟨0, 0, 0⟩, ⟨0, 1, 0⟩]
        300).2.getD 0 cdefault) = 300 :=
  c1_offset_exact [⟨0, 0, 0⟩, ⟨0, 1, 0⟩] 300 0 (by norm_num) (by norm_num)
    (by intro c hc; fin_cases hc <;> norm_num) (by norm_num)
    (by nlinarith [pi_gt_three])
